import Mathlib

/-!
# teleshell: a verification development

A shallow embedding of `teleshell.go` and `shell/shell.go`.

* Go strings are byte sequences; `len` counts bytes.  They are modelled as
  `List UInt8`.
* `strings.Split` is only ever called with a one-byte separator (`"\n"`,
  `" "`), and is modelled for that case.
* Methods of `*TeleShell` become functions from a state record to a new state
  and the list of externally visible effects they performed.
-/

namespace Teleshell

/-! ## Strings -/

/-- A Go string: an immutable sequence of bytes. -/
abbrev GoString := List UInt8

/-- The bytes of an (ASCII or UTF-8) source literal. -/
def lit (s : String) : GoString := s.data.flatMap String.utf8EncodeChar

/-- The byte of the separator `"\n"`. -/
def newline : UInt8 := 10

/-- The byte of the separator `" "`. -/
def space : UInt8 := 32

/-- The byte of `"/"`. -/
def slash : UInt8 := 47

/-- Go `strings.Split(s, sep)` for a separator `sep` of exactly one byte: the
pieces between the separators, in order.  The result is never empty (an empty
`s` yields one empty piece). -/
def stringsSplit (sep : UInt8) : GoString → List GoString
  | [] => [[]]
  | c :: cs =>
    if c = sep then [] :: stringsSplit sep cs
    else
      match stringsSplit sep cs with
      | [] => [[c]]
      | l :: ls => (c :: l) :: ls

/-! ## `paginate` (teleshell.go, lines 230-244) -/

/-- The constant `maxTelegramMessageSize`. -/
def maxTelegramMessageSize : Nat := 4096

/-- The loop state of `paginate`: the slice `pages` and the buffer `buf`. -/
structure PagState where
  pages : List GoString
  buf : GoString
deriving DecidableEq, Repr

/-- One iteration of the `for _, s := range strings.Split(input, "\n")` loop
of `paginate`. -/
def paginateStep (st : PagState) (s : GoString) : PagState :=
  let st1 : PagState :=
    if st.buf.length + s.length > maxTelegramMessageSize then
      { pages := st.pages ++ [st.buf], buf := [] }
    else st
  { st1 with buf := st1.buf ++ (s ++ [newline]) }

/-- The function `paginate`. -/
def paginate (input : GoString) : List GoString :=
  let st := (stringsSplit newline input).foldl paginateStep { pages := [], buf := [] }
  st.pages ++ [st.buf]

/-- The chunk that a run of consecutive lines is rendered to: every line of
the run followed by a newline. -/
def renderRun (run : List GoString) : GoString :=
  (run.map (fun l => l ++ [newline])).flatten

/-! ## The bot-command pattern (teleshell.go, lines 21-23)

`botCommandRegexp` is `^/(\w+) *`.  In Go's `regexp` (RE2 syntax) `^` is the
beginning of the text, `\w` is the ASCII class `[0-9A-Za-z_]`, and both
repetitions are greedy.  Since a byte of `\w` is never a space and the second
repetition may be empty, the leftmost-first match is: the slash, the longest
run of word bytes (at least one), the longest following run of spaces
(lemma `botCommandRegexp_match` states this of the definition). -/

/-- The class `\w` of Go's `regexp`: `[0-9A-Za-z_]`. -/
def isWordByte (c : UInt8) : Bool :=
  (48 ≤ c.toNat && c.toNat ≤ 57) || (65 ≤ c.toNat && c.toNat ≤ 90) ||
    c.toNat == 95 || (97 ≤ c.toNat && c.toNat ≤ 122)

/-- The match of `botCommandRegexp` in a text, as the index slice that
`FindStringSubmatchIndex` returns, `[start, end, start1, end1]`; the nil slice
(`[]`) when the pattern does not match. -/
def botCommandRegexp (text : GoString) : List Nat :=
  match text with
  | [] => []
  | c :: rest =>
    if c = slash then
      let word := rest.takeWhile isWordByte
      if word.length = 0 then []
      else
        let spaces := (rest.dropWhile isWordByte).takeWhile (fun b => b == space)
        [0, 1 + word.length + spaces.length, 1, 1 + word.length]
    else []

/-- Go `botCommandRegexp.MatchString`. -/
def botCommandRegexp.MatchString (text : GoString) : Bool :=
  !(botCommandRegexp text).isEmpty

/-- Go `botCommandRegexp.FindStringIndex`: `[start, end]` of the match, the
nil slice when there is none. -/
def botCommandRegexp.FindStringIndex (text : GoString) : List Nat :=
  (botCommandRegexp text).take 2

/-- Go `botCommandRegexp.FindStringSubmatch`: the text of the match and of
its group, the nil slice when there is no match. -/
def botCommandRegexp.FindStringSubmatch (text : GoString) : List GoString :=
  match botCommandRegexp text with
  | [s0, e0, s1, e1] => [(text.take e0).drop s0, (text.take e1).drop s1]
  | _ => []

/-! ## The bot (teleshell.go) -/

/-- A run-time panic of the Go program. -/
inductive GoPanic where
  | indexOutOfRange
  | sliceBoundsOutOfRange
  | nilDereference
  | sendOnClosedChannel
  | closeOfClosedChannel
deriving DecidableEq, Repr

def commStartSession : GoString := lit "shell"
def commStopSession : GoString := lit "exit"
def commSingleCommand : GoString := lit "cmd"
def commHelp : GoString := lit "help"

def msgSessionStarted : GoString :=
  lit "Shell started. You can talk to your machine now. Say 'exit' to stop the  shell."
def msgErrStartingSession : GoString := lit "Could not start shell."
def msgSessionStopped : GoString :=
  lit "Shell stopped. You are no longer talking to your machine."
def msgSessionInProgress : GoString :=
  lit "Your shell session is in progress. Say 'exit' to stop it."
def msgSessionNotInProgress : GoString := lit "There are no active shell sessions."
def msgNotAuthorized : GoString := lit "Sorry, you are not permitted to issue commands."

/-- The help text: the `fmt.Sprintf` of the four command names into the
template. -/
def msgHelp : GoString :=
  lit "Welcome to teleshell!\nUse the following commands:\n/" ++ commSingleCommand ++
  lit " <command> to run a single command on your machine \n\twithout launching shell.\n/" ++
  commStartSession ++
  lit " to start bash shell on your machine and redirect \n\tinput from this chat to the shell. Avoid launching \n\tinteractive programs. sudo is OK, but vim is NOT. \n\tAlso colored output of programs appears as \n\tgarbage in chat.\n/" ++
  commStopSession ++ lit " to force-kill running shell\n/" ++ commHelp ++
  lit " to see this message again."

/-- The identity of a `*shell.Shell` value. -/
abbrev ShellRef := Nat

/-- The identity of a `*telebot.Chat` value. -/
abbrev ChatRef := Nat

/-- The fields of `telebot.User` that the program reads. -/
structure User where
  Username : GoString
  IsBot : Bool
deriving DecidableEq, Repr

/-- The fields of `telebot.Message` that the program reads.  `Sender` is a
pointer and may be nil. -/
structure Message where
  Sender : Option User
  Chat : ChatRef
  Text : GoString
deriving DecidableEq, Repr

/-- The struct `TeleShell` (without the bot handle, which never changes). -/
structure TeleShell where
  TelegramUsername : GoString
  OnStart : GoString
  shellChatInProgress : Bool
  shell : Option ShellRef
deriving DecidableEq, Repr

/-- What a handler does to the outside world, in order. -/
inductive Effect where
  /-- A call `ts.bot.Send(c, msg)`. -/
  | botSend (c : ChatRef) (msg : GoString)
  /-- An `exec.Command(name, args...)` run to completion by `CombinedOutput`. -/
  | runCommand (name : GoString) (args : List GoString)
  /-- A call `shell.New(onstartscript)`. -/
  | shellNew (onstartscript : GoString)
  /-- A call `sh.Execute(command)`. -/
  | shellExecute (sh : ShellRef) (command : GoString)
  /-- A call `sh.Stop()`. -/
  | shellStop (sh : ShellRef)
  /-- The call `time.Sleep(time.Second)`. -/
  | sleepSecond
  /-- The `go func() ...` statement of `startSession`: a relay goroutine. -/
  | goRelay (sh : ShellRef) (c : ChatRef)
  /-- A call `ts.bot.Stop()`. -/
  | botStop
deriving DecidableEq, Repr

/-- The results of the operations the program asks of its environment. -/
structure World where
  /-- Result of `cmd.CombinedOutput()`: the output and the error text, if any. -/
  combinedOutput : GoString → List GoString → GoString × Option GoString
  /-- Result of `shell.New`: a shell, or the error text. -/
  shellNew : GoString → Except GoString ShellRef
  /-- Result of the write to the pty in `writeCommand`: the error text, if any. -/
  fileWrite : ShellRef → GoString → Option GoString

/-- The result of a handler: a panic, or the new state and the effects. -/
abbrev Handled := Except GoPanic (TeleShell × List Effect)

/-- The constructor `New`, as far as the state is concerned: the state of a
fresh `TeleShell`. -/
def New (username onstartscript : GoString) : TeleShell :=
  { TelegramUsername := username, OnStart := onstartscript,
    shellChatInProgress := false, shell := none }

/-- The method `TeleShell.Stop`: it stops the shell if the session reference
is not nil, then the bot. -/
def TeleShell.Stop (ts : TeleShell) : List Effect :=
  (match ts.shell with
    | some sh => [Effect.shellStop sh]
    | none => []) ++ [Effect.botStop]

/-- The method `paginatedSend`: one `bot.Send` per page, in order. -/
def paginatedSend (c : ChatRef) (msg : GoString) : List Effect :=
  (paginate msg).foldl (fun sent message => sent ++ [Effect.botSend c message]) []

/-- The method `send`. -/
def send (c : ChatRef) (msg : GoString) : List Effect :=
  if msg.length > maxTelegramMessageSize then paginatedSend c msg
  else [Effect.botSend c msg]

/-- The method `help`. -/
def help (ts : TeleShell) (m : Message) : Handled :=
  .ok (ts, send m.Chat msgHelp)

/-- The method `sorry` of the source (the refusal). -/
def refuse (ts : TeleShell) (m : Message) : Handled :=
  .ok (ts, send m.Chat msgNotAuthorized)

/-- The method `isAuthorized`; it dereferences the user pointer. -/
def isAuthorized (ts : TeleShell) (u : Option User) : Except GoPanic Bool :=
  match u with
  | none => .error .nilDereference
  | some u => .ok (u.Username == ts.TelegramUsername && !u.IsBot)

/-- The function `stripBotCommand`: `message[loc[1]:]`. -/
def stripBotCommand (message : GoString) : Except GoPanic GoString :=
  let loc := botCommandRegexp.FindStringIndex message
  match loc[1]? with
  | none => .error .indexOutOfRange
  | some e =>
    if e ≤ message.length then .ok (message.drop e)
    else .error .sliceBoundsOutOfRange

/-- The function `execCmd`: the output, the error text if any, and the
command that was run. -/
def execCmd (w : World) (c : GoString) :
    Except GoPanic ((GoString × Option GoString) × Effect) :=
  let commSlice := stringsSplit space c
  match commSlice[0]? with
  | none => .error .indexOutOfRange
  | some name =>
    if commSlice.length > 1 then
      .ok (w.combinedOutput name (commSlice.drop 1), Effect.runCommand name (commSlice.drop 1))
    else
      .ok (w.combinedOutput name [], Effect.runCommand name [])

/-- The method `execSingleCommand`. -/
def execSingleCommand (w : World) (ts : TeleShell) (m : Message) : Handled :=
  match stripBotCommand m.Text with
  | .error p => .error p
  | .ok command =>
    match execCmd w command with
    | .error p => .error p
    | .ok ((output, err), ran) =>
      match err with
      | none => .ok (ts, [ran] ++ send m.Chat output)
      | some e => .ok (ts, [ran] ++ send m.Chat output ++ send m.Chat e)

/-- The method `startSession`. -/
def startSession (w : World) (ts : TeleShell) (m : Message) : Handled :=
  if ts.shellChatInProgress then
    .ok (ts, send m.Chat msgSessionInProgress)
  else
    match w.shellNew ts.OnStart with
    | .error _ =>
      .ok (ts, [Effect.shellNew ts.OnStart] ++ send m.Chat msgErrStartingSession)
    | .ok sh =>
      .ok ({ ts with shell := some sh, shellChatInProgress := true },
        [Effect.shellNew ts.OnStart] ++ send m.Chat msgSessionStarted ++
          [Effect.goRelay sh m.Chat])

/-- The method `stopSession`. -/
def stopSession (ts : TeleShell) (m : Message) : Handled :=
  if !ts.shellChatInProgress then
    .ok (ts, send m.Chat msgSessionNotInProgress)
  else
    match ts.shell with
    | none => .error .nilDereference
    | some sh =>
      .ok ({ ts with shellChatInProgress := false, shell := none },
        [Effect.shellStop sh, Effect.sleepSecond])

/-- The text of the error that `Shell.Execute` returns when the write fails
with the error text `e`. -/
def executeError (command e : GoString) : GoString :=
  lit "error running '" ++ command ++ lit "': " ++ (lit "error writing to pty: " ++ e)

/-- The method `handleSessionMsg`. -/
def handleSessionMsg (w : World) (ts : TeleShell) (m : Message) : Handled :=
  match ts.shell with
  | none => .error .nilDereference
  | some sh =>
    match w.fileWrite sh (m.Text ++ [newline]) with
    | none => .ok (ts, [Effect.shellExecute sh m.Text])
    | some e =>
      .ok (ts, [Effect.shellExecute sh m.Text] ++ send m.Chat (executeError m.Text e))

/-- The value of the variable `command` in `authAndRoute`. -/
def routeCommand (text : GoString) : Except GoPanic GoString :=
  if botCommandRegexp.MatchString text then
    match (botCommandRegexp.FindStringSubmatch text)[1]? with
    | none => .error .indexOutOfRange
    | some word => .ok word
  else .ok []

/-- The method `authAndRoute`, the handler of every text message. -/
def authAndRoute (w : World) (ts : TeleShell) (m : Message) : Handled :=
  match isAuthorized ts m.Sender with
  | .error p => .error p
  | .ok false => refuse ts m
  | .ok true =>
    match routeCommand m.Text with
    | .error p => .error p
    | .ok command =>
      if command = commSingleCommand then execSingleCommand w ts m
      else if command = commStartSession then startSession w ts m
      else if command = commStopSession then stopSession ts m
      else if command = commHelp then help ts m
      else if ts.shellChatInProgress then handleSessionMsg w ts m
      else help ts m

/-- The statement `ts.shellChatInProgress = false` that the relay goroutine
runs when its `select` receives from `shell.Stopped()`. -/
def relayStoppedCase (ts : TeleShell) : TeleShell :=
  { ts with shellChatInProgress := false }

/-! ### Completed transitions of the manager state -/

/-- A completed transition of the `TeleShell` state. -/
inductive Transition where
  /-- A call of `startSession`, in a world `w`. -/
  | start (w : World) (m : Message)
  /-- A call of `stopSession`. -/
  | stop (m : Message)
  /-- The relay goroutine receives the stopped-signal. -/
  | relayStopped

/-- The state after one completed transition. -/
def applyTransition (ts : TeleShell) : Transition → Except GoPanic TeleShell
  | .start w m => (startSession w ts m).map Prod.fst
  | .stop m => (stopSession ts m).map Prod.fst
  | .relayStopped => .ok (relayStoppedCase ts)

/-- The state after a sequence of completed transitions. -/
def applyTransitions (ts : TeleShell) : List Transition → Except GoPanic TeleShell
  | [] => .ok ts
  | t :: rest =>
    match applyTransition ts t with
    | .error p => .error p
    | .ok ts1 => applyTransitions ts1 rest

/-! ## Channels

A Go channel made by `make(chan T, cap)`.  For `cap ≥ 1` a send that finds
room in the buffer proceeds, a send on a full buffer waits, a receive takes
the oldest buffered value, a receive on a closed and drained channel yields
the zero value at once, a send on a closed channel and a second close panic. -/

/-- Why a statement cannot complete now. -/
inductive Fault where
  /-- The statement panics. -/
  | panic (p : GoPanic)
  /-- The statement cannot proceed in this state (it waits), or the goroutine
  has no statement left. -/
  | notEnabled
deriving DecidableEq, Repr

/-- The state of a channel. -/
structure Chan (α : Type) where
  buf : List α
  cap : Nat
  closed : Bool
deriving DecidableEq, Repr

/-- Go `make(chan T, cap)`. -/
def Chan.make {α : Type} (cap : Nat) : Chan α :=
  { buf := [], cap := cap, closed := false }

/-- Go `ch <- v`. -/
def Chan.send {α : Type} (ch : Chan α) (v : α) : Except Fault (Chan α) :=
  if ch.closed then .error (.panic .sendOnClosedChannel)
  else if ch.buf.length < ch.cap then .ok { ch with buf := ch.buf ++ [v] }
  else .error .notEnabled

/-- Go `close(ch)`. -/
def Chan.close {α : Type} (ch : Chan α) : Except Fault (Chan α) :=
  if ch.closed then .error (.panic .closeOfClosedChannel)
  else .ok { ch with closed := true }

/-- Go `<-ch`, with `zero` the zero value of the element type. -/
def Chan.recv {α : Type} (ch : Chan α) (zero : α) : Except Fault (α × Chan α) :=
  match ch.buf with
  | v :: rest => .ok (v, { ch with buf := rest })
  | [] => if ch.closed then .ok (zero, ch) else .error .notEnabled

/-! ## A shell session and its two goroutines (shell/shell.go, teleshell.go) -/

/-- The struct `shell.Shell`: the pty file and the two channels. -/
structure Shell where
  fileClosed : Bool
  output : Chan GoString
  stopped : Chan Bool
deriving DecidableEq, Repr

/-- The statements of the reader goroutine of `shell.New` (lines 43-62). -/
inductive ReaderPC where
  /-- At `sh.output <- "sourcing " + onstartscript`. -/
  | notice
  /-- At `sh.Execute("source " + onstartscript)`. -/
  | source
  /-- At `n, err := sh.file.Read(buf)`. -/
  | read
  /-- At `sh.output <- string(buf[:n])`. -/
  | publish (chunk : GoString)
  /-- At `close(sh.output)`. -/
  | closeOutput
  /-- At `close(sh.stopped)`. -/
  | closeStopped
  /-- Finished. -/
  | done
deriving DecidableEq, Repr

/-- The statements of the relay goroutine of `startSession` (lines 155-166). -/
inductive RelayPC where
  /-- At the loop condition `for ts.shellChatInProgress`. -/
  | loop
  /-- At the `select`. -/
  | select
  /-- Finished, after `ts.send(m.Chat, msgSessionStopped)`. -/
  | exited
deriving DecidableEq, Repr

/-- The two cases of the relay's `select`. -/
inductive SelectCase where
  /-- The case `<-shell.Stopped()`. -/
  | stopped
  /-- The case `output := <-shell.Output()`. -/
  | output
deriving DecidableEq, Repr

/-- Who fired the stopped-signal: a send by `Stop`, or the close by the
reader goroutine. -/
inductive Source where
  | byStop
  | byReader
deriving DecidableEq, Repr

/-- A live session: the shell, the reader goroutine, the relay goroutine and
the manager state they share, with the history of what has happened. -/
structure Session where
  /-- The manager state. -/
  ts : TeleShell
  /-- The chat `m.Chat` that the relay answers to. -/
  chat : ChatRef
  /-- The shell. -/
  sh : Shell
  /-- The parameter `onstartscript` of `shell.New`. -/
  onstartscript : GoString
  reader : ReaderPC
  relay : RelayPC
  /-- History: the `bot.Send` calls of the relay goroutine. -/
  sent : List Effect
  /-- History: the values sent on the output channel. -/
  queued : List GoString
  /-- History: the values the relay received from the output channel. -/
  received : List GoString
  /-- History: the operations on the stopped channel that fire the signal. -/
  fired : List Source
deriving DecidableEq, Repr

/-- The session right after a successful `startSession`: `shell.New` has made
both channels with capacity 1 and started the reader, `startSession` has set
the flag and started the relay. -/
def Session.start (ts : TeleShell) (sh : ShellRef) (chat : ChatRef) : Session :=
  { ts := { ts with shell := some sh, shellChatInProgress := true },
    chat := chat,
    sh := { fileClosed := false, output := Chan.make 1, stopped := Chan.make 1 },
    onstartscript := ts.OnStart,
    reader := if ts.OnStart ≠ [] then .notice else .read,
    relay := .loop,
    sent := [], queued := [], received := [], fired := [] }

/-- The method `Shell.Stop`: close the file (a failure is only logged), then
`sh.stopped <- true`. -/
def Shell.Stop (sh : Shell) : Except Fault Shell :=
  match sh.stopped.send true with
  | .error f => .error f
  | .ok stopped => .ok { sh with fileClosed := true, stopped := stopped }

/-- One statement of the reader goroutine.  `readResult` is what
`sh.file.Read` returns when the statement is the read: a chunk, or `none` for
an error.  The code does not look at whether `Stop` has closed the file: a
read that was pending when the file was closed can still return a chunk. -/
def readerStep (s : Session) (readResult : Option GoString) : Except Fault Session :=
  match s.reader with
  | .notice =>
    match s.sh.output.send (lit "sourcing " ++ s.onstartscript) with
    | .error f => .error f
    | .ok output =>
      .ok { s with sh := { s.sh with output := output },
                   queued := s.queued ++ [lit "sourcing " ++ s.onstartscript],
                   reader := .source }
  | .source => .ok { s with reader := .read }
  | .read =>
    match readResult with
    | none => .ok { s with reader := .closeOutput }
    | some chunk => .ok { s with reader := .publish chunk }
  | .publish chunk =>
    match s.sh.output.send chunk with
    | .error f => .error f
    | .ok output =>
      .ok { s with sh := { s.sh with output := output },
                   queued := s.queued ++ [chunk],
                   reader := .read }
  | .closeOutput =>
    match s.sh.output.close with
    | .error f => .error f
    | .ok output => .ok { s with sh := { s.sh with output := output }, reader := .closeStopped }
  | .closeStopped =>
    match s.sh.stopped.close with
    | .error f => .error f
    | .ok stopped =>
      .ok { s with sh := { s.sh with stopped := stopped },
                   fired := s.fired ++ [Source.byReader],
                   reader := .done }
  | .done => .error .notEnabled

/-- One statement of the relay goroutine.  `pick` is the case that the
`select` takes when the statement is the `select`; a case can be taken only
when its receive can proceed. -/
def relayStep (s : Session) (pick : SelectCase) : Except Fault Session :=
  match s.relay with
  | .loop =>
    if s.ts.shellChatInProgress then .ok { s with relay := .select }
    else .ok { s with sent := s.sent ++ send s.chat msgSessionStopped, relay := .exited }
  | .select =>
    match pick with
    | .stopped =>
      match s.sh.stopped.recv false with
      | .error f => .error f
      | .ok (_, stopped) =>
        .ok { s with sh := { s.sh with stopped := stopped },
                     ts := relayStoppedCase s.ts,
                     relay := .loop }
    | .output =>
      match s.sh.output.recv [] with
      | .error f => .error f
      | .ok (output, ch) =>
        .ok { s with sh := { s.sh with output := ch },
                     sent := s.sent ++ send s.chat output,
                     received := s.received ++ [output],
                     relay := .loop }
  | .exited => .error .notEnabled

/-- What happens next in a session. -/
inductive Act where
  /-- The reader goroutine runs one statement. -/
  | reader (readResult : Option GoString)
  /-- The relay goroutine runs one statement. -/
  | relay (pick : SelectCase)
  /-- The dispatch path completes a call of `Shell.Stop`. -/
  | shellStop
  /-- The dispatch path runs `ts.shellChatInProgress = false` in `stopSession`. -/
  | clearFlag
deriving DecidableEq, Repr

/-- One step of a session. -/
def Session.step (s : Session) : Act → Except Fault Session
  | .reader r => readerStep s r
  | .relay pick => relayStep s pick
  | .shellStop =>
    match s.sh.Stop with
    | .error f => .error f
    | .ok sh => .ok { s with sh := sh, fired := s.fired ++ [Source.byStop] }
  | .clearFlag => .ok { s with ts := { s.ts with shellChatInProgress := false } }

/-- A run of a session: the steps of a schedule, in order. -/
def Session.run (s : Session) : List Act → Except Fault Session
  | [] => .ok s
  | a :: rest =>
    match s.step a with
    | .error f => .error f
    | .ok s1 => s1.run rest

/-! ## Invariants and sample values -/

/-- The history of the stopped-signal after `n` completed calls of `Stop`:
`n` sends by `Stop`, then the close by the reader if the reader has finished;
and the reader has finished only with the stopped channel closed. -/
def FiredInv (s : Session) (n : Nat) : Prop :=
  s.fired = List.replicate n Source.byStop ++
      (if s.reader = .done then [Source.byReader] else []) ∧
    (s.reader = .done → s.sh.stopped.closed = true)

/-- The relation between the histories of the output channel and of the
relay: the channel is first-in first-out with one slot, what the relay has
received and what is still buffered is what was sent, followed by `k` zero
values received after the close, and the relay has sent on what it received
and, at its end, the stop notice. -/
def RelayInv (s : Session) (k : Nat) : Prop :=
  s.sh.output.cap = 1 ∧
    s.sh.output.buf.length ≤ 1 ∧
    s.received ++ s.sh.output.buf = s.queued ++ List.replicate k [] ∧
    (k ≠ 0 → s.sh.output.closed = true ∧ s.sh.output.buf = []) ∧
    s.sent = s.received.flatMap (send s.chat) ++
      (if s.relay = .exited then [Effect.botSend s.chat msgSessionStopped] else [])

/-- A world in which every operation succeeds; `shell.New` returns shell 1. -/
def demoWorld : World :=
  { combinedOutput := fun _ _ => ([], none),
    shellNew := fun _ => .ok 1,
    fileWrite := fun _ _ => none }

/-- A bot of the operator `alice`, without a start script. -/
def demoBot : TeleShell := New (lit "alice") []

/-- The bot of `alice` with a session in progress. -/
def demoBotActive : TeleShell :=
  { demoBot with shellChatInProgress := true, shell := some 1 }

/-- A message of the operator `alice` in chat 7. -/
def fromAlice (text : GoString) : Message :=
  { Sender := some { Username := lit "alice", IsBot := false }, Chat := 7, Text := text }

/-- A message of somebody else, `mallory`, in chat 7. -/
def fromMallory (text : GoString) : Message :=
  { Sender := some { Username := lit "mallory", IsBot := false }, Chat := 7, Text := text }

/-- A schedule: `Stop` is called, then the reader's read fails and the reader
closes both channels. -/
def stopThenReaderExit : List Act :=
  [.shellStop, .reader none, .reader none, .reader none]

/-- A schedule: the reader reads the chunk `x` and queues it, its next read
fails and it closes both channels; only then the relay runs: it enters the
`select`, takes the stopped case, finds the flag cleared and sends the stop
notice. -/
def stoppedBeforeOutput : List Act :=
  [.reader (some (lit "x")), .reader none, .reader none, .reader none, .reader none,
   .relay .stopped, .relay .stopped, .relay .stopped]

/-- A schedule: the reader reads the chunk `x` and queues it, the relay
forwards it; the reader's next read fails and it closes both channels; the
relay takes the stopped case and sends the stop notice. -/
def outputBeforeStopped : List Act :=
  [.reader (some (lit "x")), .reader none, .relay .output, .relay .output,
   .reader none, .reader none, .reader none,
   .relay .stopped, .relay .stopped, .relay .stopped]

/-- A schedule: the shell quits, so the reader's read fails and the reader
closes both channels; the relay takes the stopped case and sends the stop
notice. -/
def shellQuits : List Act :=
  [.reader none, .reader none, .reader none,
   .relay .stopped, .relay .stopped, .relay .stopped]

/-- A schedule: `Stop` is called while the reader waits in its read; the read
then returns the chunk `late`, which the reader queues; the next read fails
and the reader closes both channels. -/
def stopThenLateChunk : List Act :=
  [.shellStop, .reader (some (lit "late")), .reader none,
   .reader none, .reader none, .reader none]

/-! # Theorems -/

/-! ### Facts about `stringsSplit` -/

lemma stringsSplit_ne_nil (sep : UInt8) (s : GoString) : stringsSplit sep s ≠ [] := by
  cases s with
  | nil => simp [stringsSplit]
  | cons c cs =>
    unfold stringsSplit
    split
    · simp
    · split <;> simp

lemma stringsSplit_cons_ne {sep c : UInt8} (h : c ≠ sep) (cs : GoString) :
    stringsSplit sep (c :: cs) =
      (c :: (stringsSplit sep cs).headI) :: (stringsSplit sep cs).tail := by
  have hne := stringsSplit_ne_nil sep cs
  rw [stringsSplit, if_neg h]
  cases hs : stringsSplit sep cs with
  | nil => exact absurd hs hne
  | cons l ls => simp

lemma stringsSplit_no_sep {sep : UInt8} {pre : GoString} (h : sep ∉ pre) :
    stringsSplit sep pre = [pre] := by
  induction pre with
  | nil => simp [stringsSplit]
  | cons c cs ih =>
    have hc : c ≠ sep := fun e => h (by simp [e])
    have hcs : sep ∉ cs := fun e => h (by simp [e])
    rw [stringsSplit_cons_ne hc, ih hcs]
    simp

lemma stringsSplit_append_sep {sep : UInt8} {pre : GoString} (h : sep ∉ pre)
    (rest : GoString) :
    stringsSplit sep (pre ++ sep :: rest) = pre :: stringsSplit sep rest := by
  induction pre with
  | nil => simp [stringsSplit]
  | cons c cs ih =>
    have hc : c ≠ sep := fun e => h (by simp [e])
    have hcs : sep ∉ cs := fun e => h (by simp [e])
    rw [List.cons_append, stringsSplit_cons_ne hc, ih hcs]
    simp

/-- Rendering all the lines of a text gives the text back, followed by one
more newline. -/
lemma renderRun_stringsSplit (s : GoString) :
    renderRun (stringsSplit newline s) = s ++ [newline] := by
  induction s with
  | nil => simp [stringsSplit, renderRun]
  | cons c cs ih =>
    by_cases hc : c = newline
    · subst hc
      rw [stringsSplit, if_pos rfl]
      simp only [renderRun, List.map_cons, List.flatten_cons, List.nil_append,
        List.singleton_append, List.cons_append, List.cons.injEq, true_and] at ih ⊢
      exact ih
    · rw [stringsSplit_cons_ne hc]
      have hne := stringsSplit_ne_nil newline cs
      cases hs : stringsSplit newline cs with
      | nil => exact absurd hs hne
      | cons l ls =>
        rw [hs] at ih
        simp only [renderRun, List.map_cons, List.flatten_cons, List.headI_cons,
          List.tail_cons, List.cons_append, List.append_assoc, List.cons.injEq,
          true_and] at ih ⊢
        exact ih

lemma stringsSplit_no_sep_mem (sep : UInt8) (s : GoString) :
    ∀ l ∈ stringsSplit sep s, sep ∉ l := by
  induction s with
  | nil => simp [stringsSplit]
  | cons c cs ih =>
    by_cases hc : c = sep
    · subst hc
      rw [stringsSplit, if_pos rfl]
      intro l hl
      rcases List.mem_cons.1 hl with h | h
      · simp [h]
      · exact ih l h
    · rw [stringsSplit_cons_ne hc]
      have hne := stringsSplit_ne_nil sep cs
      cases hs : stringsSplit sep cs with
      | nil => exact absurd hs hne
      | cons l0 ls =>
        rw [hs] at ih
        intro l hl
        simp only [List.headI_cons, List.tail_cons, List.mem_cons] at hl
        rcases hl with h | h
        · subst h
          have h0 := ih l0 (by simp)
          simp only [List.mem_cons, not_or]
          exact ⟨fun e => hc e.symm, h0⟩
        · exact ih l (by simp [h])

/-! ### The loop of `paginate` -/

lemma renderRun_nil : renderRun [] = [] := rfl

lemma renderRun_append (a b : List GoString) :
    renderRun (a ++ b) = renderRun a ++ renderRun b := by
  simp [renderRun]

lemma renderRun_singleton (s : GoString) : renderRun [s] = s ++ [newline] := by
  simp [renderRun]

/-- The loop invariant of `paginate`: the pages pushed so far are the renderings
of completed runs of lines, the buffer is the rendering of the current run. -/
lemma foldl_paginateStep_runs (ls : List GoString) :
    ∀ (done : List (List GoString)) (cur : List GoString),
      (∀ r ∈ done.tail, r ≠ []) → (done ≠ [] → cur ≠ []) →
      ∃ runs : List (List GoString),
        runs.flatten = done.flatten ++ cur ++ ls ∧
        (ls.foldl paginateStep ⟨done.map renderRun, renderRun cur⟩).pages ++
          [(ls.foldl paginateStep ⟨done.map renderRun, renderRun cur⟩).buf]
            = runs.map renderRun ∧
        (∀ r ∈ runs.tail, r ≠ []) ∧
        ((∀ r ∈ done, r ≠ []) →
          (cur = [] → ls ≠ [] ∧ ls.headI.length ≤ maxTelegramMessageSize) →
          ∀ r ∈ runs, r ≠ []) := by
  induction ls with
  | nil =>
    intro done cur hd hc
    refine ⟨done ++ [cur], by simp, by simp, ?_, ?_⟩
    · intro r hr
      cases done with
      | nil => simp at hr
      | cons d ds =>
        simp only [List.cons_append, List.tail_cons, List.mem_append,
          List.mem_singleton] at hr
        rcases hr with h | h
        · exact hd r (by simpa using h)
        · subst h; exact hc (by simp)
    · intro hall hcur r hr
      simp only [List.mem_append, List.mem_singleton] at hr
      rcases hr with h | h
      · exact hall r h
      · subst h
        intro e
        exact (hcur e).1 rfl
  | cons s ls ih =>
    intro done cur hd hc
    by_cases hflush : (renderRun cur).length + s.length > maxTelegramMessageSize
    · have hstep : paginateStep ⟨done.map renderRun, renderRun cur⟩ s =
          ⟨(done ++ [cur]).map renderRun, renderRun [s]⟩ := by
        simp [paginateStep, hflush, renderRun_singleton]
      have hd' : ∀ r ∈ (done ++ [cur]).tail, r ≠ [] := by
        intro r hr
        cases done with
        | nil => simp at hr
        | cons d ds =>
          simp only [List.cons_append, List.tail_cons, List.mem_append,
            List.mem_singleton] at hr
          rcases hr with h | h
          · exact hd r (by simpa using h)
          · subst h; exact hc (by simp)
      obtain ⟨runs, h1, h2, h3, h4⟩ := ih (done ++ [cur]) [s] hd' (by simp)
      refine ⟨runs, ?_, ?_, h3, ?_⟩
      · rw [h1]; simp
      · rw [List.foldl_cons, hstep]; exact h2
      · intro hall hcur
        have hcne : cur ≠ [] := by
          intro e
          have h := (hcur e).2
          subst e
          simp only [renderRun_nil, List.length_nil, List.headI_cons, zero_add] at hflush h
          omega
        apply h4
        · intro r hr
          simp only [List.mem_append, List.mem_singleton] at hr
          rcases hr with h | h
          · exact hall r h
          · subst h; exact hcne
        · intro e; simp at e
    · have hstep : paginateStep ⟨done.map renderRun, renderRun cur⟩ s =
          ⟨done.map renderRun, renderRun (cur ++ [s])⟩ := by
        simp [paginateStep, hflush, renderRun_append, renderRun_singleton]
      obtain ⟨runs, h1, h2, h3, h4⟩ := ih done (cur ++ [s]) hd (by simp)
      refine ⟨runs, ?_, ?_, h3, ?_⟩
      · rw [h1]; simp
      · rw [List.foldl_cons, hstep]; exact h2
      · intro hall _
        apply h4 hall
        intro e; simp at e

/-- The chunks of `paginate` are the renderings of consecutive runs of the
input's lines. -/
lemma paginate_runs (input : GoString) :
    ∃ runs : List (List GoString),
      runs.flatten = stringsSplit newline input ∧
      paginate input = runs.map renderRun ∧
      (∀ r ∈ runs.tail, r ≠ []) ∧
      ((stringsSplit newline input).headI.length ≤ maxTelegramMessageSize →
        ∀ r ∈ runs, r ≠ []) := by
  obtain ⟨runs, h1, h2, h3, h4⟩ :=
    foldl_paginateStep_runs (stringsSplit newline input) [] [] (by simp) (by simp)
  refine ⟨runs, by simpa using h1, ?_, h3, ?_⟩
  · simpa [paginate, renderRun_nil] using h2
  · intro hlen
    exact h4 (by simp) (fun _ => ⟨stringsSplit_ne_nil _ _, hlen⟩)

lemma flatten_map_renderRun (runs : List (List GoString)) :
    (runs.map renderRun).flatten = renderRun runs.flatten := by
  induction runs with
  | nil => rfl
  | cons r rs ih => simp [renderRun_append, ih]

/-- The chunks of `paginate`, concatenated, are the input followed by one
newline byte. -/
lemma paginate_flatten (input : GoString) :
    (paginate input).flatten = input ++ [newline] := by
  obtain ⟨runs, h1, h2, _, _⟩ := paginate_runs input
  rw [h2, flatten_map_renderRun, h1, renderRun_stringsSplit]

/-- With every line at most `maxTelegramMessageSize` bytes long, the loop of
`paginate` keeps the pages and the buffer within one byte of the limit. -/
lemma foldl_paginateStep_length (ls : List GoString)
    (hls : ∀ l ∈ ls, l.length ≤ maxTelegramMessageSize) :
    ∀ st : PagState,
      (∀ p ∈ st.pages, p.length ≤ maxTelegramMessageSize + 1) →
      st.buf.length ≤ maxTelegramMessageSize + 1 →
      (∀ p ∈ (ls.foldl paginateStep st).pages, p.length ≤ maxTelegramMessageSize + 1) ∧
        (ls.foldl paginateStep st).buf.length ≤ maxTelegramMessageSize + 1 := by
  induction ls with
  | nil => intro st hp hb; exact ⟨hp, hb⟩
  | cons s ls ih =>
    intro st hp hb
    have hs : s.length ≤ maxTelegramMessageSize := hls s (by simp)
    rw [List.foldl_cons]
    apply ih (fun l hl => hls l (by simp [hl]))
    · intro p hpm
      unfold paginateStep at hpm
      split_ifs at hpm with hflush
      · simp only [List.mem_append, List.mem_singleton] at hpm
        rcases hpm with h | h
        · exact hp p h
        · subst h; exact hb
      · exact hp p hpm
    · unfold paginateStep
      split_ifs with hflush
      · simp only [List.nil_append, List.length_append, List.length_singleton]
        omega
      · simp only [List.length_append, List.length_singleton]
        omega

/-- With every line at most `maxTelegramMessageSize` bytes long, every chunk of
`paginate` is at most `maxTelegramMessageSize + 1` bytes long: the newline
written after a line is not counted by the test of the loop. -/
lemma paginate_chunk_le_succ (input : GoString)
    (hls : ∀ l ∈ stringsSplit newline input, l.length ≤ maxTelegramMessageSize) :
    ∀ c ∈ paginate input, c.length ≤ maxTelegramMessageSize + 1 := by
  have h := foldl_paginateStep_length (stringsSplit newline input) hls ⟨[], []⟩
    (by simp) (by simp)
  intro c hc
  simp only [paginate, List.mem_append, List.mem_singleton] at hc
  rcases hc with hc | hc
  · exact h.1 c hc
  · subst hc; exact h.2

/-! ### Facts about `send` -/

lemma foldl_botSend (c : ChatRef) (pages : List GoString) (sent : List Effect) :
    pages.foldl (fun sent message => sent ++ [Effect.botSend c message]) sent =
      sent ++ pages.map (Effect.botSend c) := by
  induction pages generalizing sent with
  | nil => simp
  | cons p ps ih => simp [ih]

lemma paginatedSend_eq (c : ChatRef) (msg : GoString) :
    paginatedSend c msg = (paginate msg).map (Effect.botSend c) := by
  simp [paginatedSend, foldl_botSend]

lemma send_short (c : ChatRef) (msg : GoString) (h : msg.length ≤ maxTelegramMessageSize) :
    send c msg = [Effect.botSend c msg] := by
  simp [send, Nat.not_lt.2 h]

lemma msgNotAuthorized_length : msgNotAuthorized.length = 47 := by decide

lemma msgSessionInProgress_length : msgSessionInProgress.length = 57 := by decide

lemma msgSessionStopped_length : msgSessionStopped.length = 57 := by decide

lemma send_msgNotAuthorized (c : ChatRef) :
    send c msgNotAuthorized = [Effect.botSend c msgNotAuthorized] :=
  send_short c _ (by rw [msgNotAuthorized_length]; decide)

lemma send_msgSessionInProgress (c : ChatRef) :
    send c msgSessionInProgress = [Effect.botSend c msgSessionInProgress] :=
  send_short c _ (by rw [msgSessionInProgress_length]; decide)

lemma send_msgSessionStopped (c : ChatRef) :
    send c msgSessionStopped = [Effect.botSend c msgSessionStopped] :=
  send_short c _ (by rw [msgSessionStopped_length]; decide)

/-! ### Facts about the bot-command pattern -/

/-- The shape of a match of `botCommandRegexp`. -/
lemma botCommandRegexp_cases (text : GoString) :
    botCommandRegexp text = [] ∨
      ∃ e w, botCommandRegexp text = [0, e, 1, w] ∧ 2 ≤ w ∧ w ≤ e ∧ e ≤ text.length := by
  cases text with
  | nil => left; rfl
  | cons c rest =>
    by_cases h1 : c = slash
    · by_cases h2 : (rest.takeWhile isWordByte).length = 0
      · left; simp [botCommandRegexp, h1, h2]
      · right
        refine ⟨1 + (rest.takeWhile isWordByte).length +
            ((rest.dropWhile isWordByte).takeWhile (fun b => b == space)).length,
          1 + (rest.takeWhile isWordByte).length, ?_, by omega, by omega, ?_⟩
        · simp only [botCommandRegexp, h1, if_true, h2, if_false]
        · have hw := congrArg List.length (List.takeWhile_append_dropWhile isWordByte rest)
          have hs : ((rest.dropWhile isWordByte).takeWhile (fun b => b == space)).length ≤
              (rest.dropWhile isWordByte).length :=
            (List.takeWhile_sublist _).length_le
          rw [List.length_append] at hw
          simp only [List.length_cons]
          omega
    · left; simp [botCommandRegexp, h1]

/-- What `botCommandRegexp` finds is the match of `^/(\w+) *`: the text is the
slash, a non-empty word of `\w` bytes that no `\w` byte follows (the group),
spaces that no space follows, and a rest; the offsets are those of the ends
of the word and of the spaces. -/
lemma botCommandRegexp_match (text : GoString) (e w : Nat)
    (h : botCommandRegexp text = [0, e, 1, w]) :
    ∃ word spaces rest,
      text = slash :: (word ++ (spaces ++ rest)) ∧
      word ≠ [] ∧ (∀ b ∈ word, isWordByte b = true) ∧
      (spaces ++ rest).head?.all (fun b => !isWordByte b) = true ∧
      (∀ b ∈ spaces, b = space) ∧
      rest.head?.all (fun b => !(b == space)) = true ∧
      w = 1 + word.length ∧ e = w + spaces.length := by
  cases text with
  | nil => simp [botCommandRegexp] at h
  | cons c rest =>
    by_cases h1 : c = slash
    · by_cases h2 : (rest.takeWhile isWordByte).length = 0
      · simp [botCommandRegexp, h1, h2] at h
      · simp only [botCommandRegexp, h1, if_true, h2, if_false, List.cons.injEq,
          true_and, and_true] at h
        obtain ⟨he, hw⟩ := h
        refine ⟨rest.takeWhile isWordByte,
          (rest.dropWhile isWordByte).takeWhile (fun b => b == space),
          (rest.dropWhile isWordByte).dropWhile (fun b => b == space), ?_, ?_, ?_, ?_, ?_,
          ?_, hw.symm, ?_⟩
        · rw [h1, List.takeWhile_append_dropWhile, List.takeWhile_append_dropWhile]
        · intro e0; exact h2 (by rw [e0]; rfl)
        · intro b hb; exact List.mem_takeWhile_imp hb
        · rw [List.takeWhile_append_dropWhile]
          have := List.head?_dropWhile_not isWordByte rest
          cases hd : (rest.dropWhile isWordByte).head? with
          | none => rfl
          | some b => rw [hd] at this; simpa using this
        · intro b hb
          have := List.mem_takeWhile_imp hb
          simpa using this
        · have := List.head?_dropWhile_not (fun b => b == space)
            (rest.dropWhile isWordByte)
          cases hd : ((rest.dropWhile isWordByte).dropWhile (fun b => b == space)).head? with
          | none => rfl
          | some b => rw [hd] at this; simpa using this
        · omega
    · simp [botCommandRegexp, h1] at h

/-! ### `paginate` on a line that fills the limit -/

/-- A text made of a line of `n` bytes `a`, a newline and the byte `b`, with
`n` the limit: the chunks of `paginate`. -/
lemma paginate_full_line (n : Nat) (a b : UInt8) (hn : n = maxTelegramMessageSize)
    (ha : a ≠ newline) (hb : b ≠ newline) :
    stringsSplit newline (List.replicate n a ++ [newline, b]) = [List.replicate n a, [b]] ∧
    paginate (List.replicate n a ++ [newline, b]) =
      [List.replicate n a ++ [newline], [b, newline]] := by
  have hno : newline ∉ List.replicate n a := by
    intro h
    exact ha (List.eq_of_mem_replicate h).symm
  have hbm : newline ∉ ([b] : GoString) := by
    simp only [List.mem_singleton]
    exact fun e => hb e.symm
  have hsplit : stringsSplit newline (List.replicate n a ++ [newline, b]) =
      [List.replicate n a, [b]] := by
    rw [stringsSplit_append_sep hno, stringsSplit_no_sep hbm]
  refine ⟨hsplit, ?_⟩
  have h1 : ¬ (0 + n > maxTelegramMessageSize) := by omega
  have h2 : n + 1 + 1 > maxTelegramMessageSize := by omega
  simp only [paginate, hsplit, List.foldl_cons, List.foldl_nil, paginateStep,
    List.length_nil, List.length_replicate, h1, if_false, List.nil_append,
    List.length_append, List.length_singleton, List.length_cons, h2, if_true,
    List.singleton_append]

/-! ### The manager state -/

/-- In every state reached by completed transitions the flag implies a
session reference. -/
lemma flag_implies_session (evs : List Transition) :
    ∀ ts0 ts : TeleShell, (ts0.shellChatInProgress = true → ts0.shell ≠ none) →
      applyTransitions ts0 evs = .ok ts →
      (ts.shellChatInProgress = true → ts.shell ≠ none) := by
  induction evs with
  | nil =>
    intro ts0 ts h0 h
    simp only [applyTransitions, Except.ok.injEq] at h
    subst h; exact h0
  | cons t rest ih =>
    intro ts0 ts h0 h
    simp only [applyTransitions] at h
    split at h
    · exact absurd h (by simp)
    · rename_i ts1 h1
      refine ih ts1 ts ?_ h
      cases t with
      | start w m =>
        simp only [applyTransition, startSession] at h1
        split_ifs at h1 with hf
        · simp only [Except.map, Except.ok.injEq] at h1
          subst h1; exact h0
        · split at h1
          · simp only [Except.map, Except.ok.injEq] at h1
            subst h1; exact h0
          · simp only [Except.map, Except.ok.injEq] at h1
            subst h1; simp
      | stop m =>
        simp only [applyTransition, stopSession] at h1
        split_ifs at h1 with hf
        · simp only [Except.map, Except.ok.injEq] at h1
          subst h1; exact h0
        · split at h1
          · simp [Except.map] at h1
          · simp only [Except.map, Except.ok.injEq] at h1
            subst h1; simp
      | relayStopped =>
        simp only [applyTransition, Except.ok.injEq] at h1
        subst h1; simp [relayStoppedCase]

/-! ### The stopped-signal of a session -/

lemma Chan.send_ok_not_closed {α : Type} {ch ch1 : Chan α} {v : α}
    (h : ch.send v = .ok ch1) :
    ch.closed = false ∧ ch1.closed = false ∧ ch.buf.length < ch.cap ∧
      ch1.buf = ch.buf ++ [v] ∧ ch1.cap = ch.cap := by
  unfold Chan.send at h
  split_ifs at h with h1 h2
  simp only [Except.ok.injEq] at h
  subst h
  exact ⟨by simpa using h1, by simpa using h1, h2, rfl, rfl⟩

lemma Chan.close_ok {α : Type} {ch ch1 : Chan α} (h : ch.close = .ok ch1) :
    ch1.closed = true ∧ ch1.buf = ch.buf ∧ ch1.cap = ch.cap := by
  unfold Chan.close at h
  split_ifs at h with h1
  simp only [Except.ok.injEq] at h
  subst h
  exact ⟨rfl, rfl, rfl⟩

lemma Chan.recv_ok {α : Type} {ch ch1 : Chan α} {zero v : α}
    (h : ch.recv zero = .ok (v, ch1)) :
    ch1.closed = ch.closed ∧ ch1.cap = ch.cap ∧
      ((ch.buf = v :: ch1.buf) ∨ (ch.buf = [] ∧ ch1.buf = [] ∧ ch.closed = true ∧ v = zero)) := by
  unfold Chan.recv at h
  split at h
  · rename_i v0 rest hb
    simp only [Except.ok.injEq, Prod.mk.injEq] at h
    obtain ⟨hv, hc⟩ := h
    subst hv hc
    exact ⟨rfl, rfl, Or.inl hb⟩
  · rename_i hb
    split_ifs at h with hc
    simp only [Except.ok.injEq, Prod.mk.injEq] at h
    obtain ⟨hv, hch⟩ := h
    subst hv hch
    exact ⟨rfl, rfl, Or.inr ⟨hb, hb, hc, rfl⟩⟩

/-- A step of the reader keeps the history of the stopped-signal in shape. -/
lemma readerStep_fired {s s1 : Session} {r : Option GoString} {n : Nat}
    (hinv : FiredInv s n) (h : readerStep s r = .ok s1) : FiredInv s1 n := by
  obtain ⟨hf, hd⟩ := hinv
  unfold readerStep at h
  split at h
  · rename_i hpc
    split at h
    · exact absurd h (by simp)
    · simp only [Except.ok.injEq] at h
      subst h
      simp only [hpc, reduceCtorEq, if_false, List.append_nil] at hf
      exact ⟨by simpa using hf, by simp⟩
  · rename_i hpc
    simp only [Except.ok.injEq] at h
    subst h
    simp only [hpc, reduceCtorEq, if_false, List.append_nil] at hf
    exact ⟨by simpa using hf, by simp⟩
  · rename_i hpc
    simp only [hpc, reduceCtorEq, if_false, List.append_nil] at hf
    split at h
    · simp only [Except.ok.injEq] at h
      subst h
      exact ⟨by simpa using hf, by simp⟩
    · simp only [Except.ok.injEq] at h
      subst h
      exact ⟨by simpa using hf, by simp⟩
  · rename_i chunk hpc
    simp only [hpc, reduceCtorEq, if_false, List.append_nil] at hf
    split at h
    · exact absurd h (by simp)
    · simp only [Except.ok.injEq] at h
      subst h
      exact ⟨by simpa using hf, by simp⟩
  · rename_i hpc
    simp only [hpc, reduceCtorEq, if_false, List.append_nil] at hf
    split at h
    · exact absurd h (by simp)
    · simp only [Except.ok.injEq] at h
      subst h
      exact ⟨by simpa using hf, by simp⟩
  · rename_i hpc
    simp only [hpc, reduceCtorEq, if_false, List.append_nil] at hf
    split at h
    · exact absurd h (by simp)
    · rename_i stopped hclose
      simp only [Except.ok.injEq] at h
      subst h
      exact ⟨by simp [hf], fun _ => (Chan.close_ok hclose).1⟩
  · exact absurd h (by simp)

/-- A step of the relay keeps the history of the stopped-signal in shape. -/
lemma relayStep_fired {s s1 : Session} {pick : SelectCase} {n : Nat}
    (hinv : FiredInv s n) (h : relayStep s pick = .ok s1) : FiredInv s1 n := by
  obtain ⟨hf, hd⟩ := hinv
  unfold relayStep at h
  split at h
  · split_ifs at h
    · simp only [Except.ok.injEq] at h
      subst h; exact ⟨hf, hd⟩
    · simp only [Except.ok.injEq] at h
      subst h; exact ⟨hf, hd⟩
  · split at h
    · split at h
      · exact absurd h (by simp)
      · rename_i v stopped hrecv
        simp only [Except.ok.injEq] at h
        subst h
        refine ⟨hf, fun hdone => ?_⟩
        have := (Chan.recv_ok hrecv).1
        simp only [this]
        exact hd hdone
    · split at h
      · exact absurd h (by simp)
      · simp only [Except.ok.injEq] at h
        subst h; exact ⟨hf, hd⟩
  · exact absurd h (by simp)

/-- A step of a session keeps the history of the stopped-signal in shape; a
completed `Stop` adds one send. -/
lemma step_fired {s s1 : Session} {a : Act} {n : Nat}
    (hinv : FiredInv s n) (h : s.step a = .ok s1) :
    FiredInv s1 (n + [a].count Act.shellStop) := by
  cases a with
  | reader r => exact readerStep_fired hinv h
  | relay pick => exact relayStep_fired hinv h
  | shellStop =>
    obtain ⟨hf, hd⟩ := hinv
    simp only [Session.step, Shell.Stop] at h
    split at h
    · exact absurd h (by simp)
    · rename_i sh hstop
      split at hstop
      · exact absurd hstop (by simp)
      · rename_i stopped hsend
        simp only [Except.ok.injEq] at hstop h
        subst hstop; subst h
        have hopen := Chan.send_ok_not_closed hsend
        have hnd : s.reader ≠ .done := by
          intro e
          have := hd e
          rw [hopen.1] at this
          exact absurd this (by simp)
        refine ⟨?_, fun e => absurd e hnd⟩
        simp only [hnd, if_false, List.append_nil] at hf ⊢
        simp [hf, List.replicate_succ']
  | clearFlag =>
    simp only [Session.step, Except.ok.injEq] at h
    subst h
    exact hinv

/-- A run of a session keeps the history of the stopped-signal in shape. -/
lemma run_fired (acts : List Act) :
    ∀ (s s1 : Session) (n : Nat), FiredInv s n → s.run acts = .ok s1 →
      FiredInv s1 (n + acts.count Act.shellStop) := by
  induction acts with
  | nil =>
    intro s s1 n hinv h
    simp only [Session.run, Except.ok.injEq] at h
    subst h; simpa using hinv
  | cons a rest ih =>
    intro s s1 n hinv h
    simp only [Session.run] at h
    split at h
    · exact absurd h (by simp)
    · rename_i s2 hstep
      have h2 := ih s2 s1 _ (step_fired hinv hstep) h
      have hc : n + [a].count Act.shellStop + rest.count Act.shellStop =
          n + (a :: rest).count Act.shellStop := by
        rw [Nat.add_assoc, ← List.count_append]; rfl
      rw [hc] at h2
      exact h2

lemma start_fired (ts : TeleShell) (sh : ShellRef) (chat : ChatRef) :
    FiredInv (Session.start ts sh chat) 0 := by
  by_cases hs : ts.OnStart = []
  · simp [FiredInv, Session.start, hs]
  · simp [FiredInv, Session.start, hs]

/-! ### The output channel of a session -/

/-- A send on the one-slot output channel keeps the histories related. -/
lemma RelayInv.after_send {s : Session} {k : Nat} {v : GoString} {output : Chan GoString}
    (hinv : RelayInv s k) (hsend : s.sh.output.send v = .ok output) :
    output.cap = 1 ∧ output.buf.length ≤ 1 ∧
      s.received ++ output.buf = (s.queued ++ [v]) ++ List.replicate 0 [] ∧
      ((0 : Nat) ≠ 0 → output.closed = true ∧ output.buf = []) := by
  obtain ⟨hcap, hlen, hq, hk, _⟩ := hinv
  obtain ⟨hopen, _, hroom, hbuf, hcap1⟩ := Chan.send_ok_not_closed hsend
  have hk0 : k = 0 := by
    by_contra hne
    have := (hk hne).1
    rw [hopen] at this
    exact absurd this (by simp)
  have hempty : s.sh.output.buf = [] := by
    rw [hcap] at hroom
    exact List.length_eq_zero.1 (by omega)
  subst hk0
  rw [hempty] at hq hbuf
  simp only [List.append_nil, List.replicate_zero] at hq
  refine ⟨by rw [hcap1, hcap], by simp [hbuf], ?_, fun h => absurd rfl h⟩
  simp [hbuf, hq]

/-- A step of the reader keeps the histories of the output channel related. -/
lemma readerStep_relay {s s1 : Session} {r : Option GoString} {k : Nat}
    (hinv : RelayInv s k) (h : readerStep s r = .ok s1) : ∃ k1, RelayInv s1 k1 := by
  unfold readerStep at h
  split at h
  · split at h
    · exact absurd h (by simp)
    · rename_i output hsend
      simp only [Except.ok.injEq] at h
      subst h
      obtain ⟨h1, h2, h3, h4⟩ := hinv.after_send hsend
      exact ⟨0, h1, h2, h3, h4, hinv.2.2.2.2⟩
  · simp only [Except.ok.injEq] at h
    subst h
    exact ⟨k, hinv⟩
  · split at h
    · simp only [Except.ok.injEq] at h
      subst h
      exact ⟨k, hinv⟩
    · simp only [Except.ok.injEq] at h
      subst h
      exact ⟨k, hinv⟩
  · split at h
    · exact absurd h (by simp)
    · rename_i output hsend
      simp only [Except.ok.injEq] at h
      subst h
      obtain ⟨h1, h2, h3, h4⟩ := hinv.after_send hsend
      exact ⟨0, h1, h2, h3, h4, hinv.2.2.2.2⟩
  · split at h
    · exact absurd h (by simp)
    · rename_i output hclose
      simp only [Except.ok.injEq] at h
      subst h
      obtain ⟨hcap, hlen, hq, hk, hsent⟩ := hinv
      obtain ⟨hc, hb, hcp⟩ := Chan.close_ok hclose
      refine ⟨k, by simp only [hcp, hcap], by simp only [hb]; exact hlen,
        by simp only [hb]; exact hq, fun hne => ?_, hsent⟩
      simp only [hb, hc, true_and]
      exact (hk hne).2
  · split at h
    · exact absurd h (by simp)
    · simp only [Except.ok.injEq] at h
      subst h
      exact ⟨k, hinv⟩
  · exact absurd h (by simp)

/-- A step of the relay keeps the histories of the output channel related. -/
lemma relayStep_relay {s s1 : Session} {pick : SelectCase} {k : Nat}
    (hinv : RelayInv s k) (h : relayStep s pick = .ok s1) : ∃ k1, RelayInv s1 k1 := by
  obtain ⟨hcap, hlen, hq, hk, hsent⟩ := hinv
  unfold relayStep at h
  split at h
  · rename_i hpc
    simp only [hpc, reduceCtorEq, if_false, List.append_nil] at hsent
    split_ifs at h
    · simp only [Except.ok.injEq] at h
      subst h
      exact ⟨k, hcap, hlen, hq, hk, by simp [hsent]⟩
    · simp only [Except.ok.injEq] at h
      subst h
      exact ⟨k, hcap, hlen, hq, hk, by simp [hsent, send_msgSessionStopped]⟩
  · rename_i hpc
    simp only [hpc, reduceCtorEq, if_false, List.append_nil] at hsent
    split at h
    · split at h
      · exact absurd h (by simp)
      · simp only [Except.ok.injEq] at h
        subst h
        exact ⟨k, hcap, hlen, hq, hk, by simp [hsent]⟩
    · split at h
      · exact absurd h (by simp)
      · rename_i v ch hrecv
        simp only [Except.ok.injEq] at h
        subst h
        obtain ⟨hc, hcp, hcase⟩ := Chan.recv_ok hrecv
        rcases hcase with hb | ⟨hb, hb1, hcl, hv⟩
        · have hk0 : k = 0 := by
            by_contra hne
            have := (hk hne).2
            rw [hb] at this
            exact absurd this (by simp)
          subst hk0
          refine ⟨0, by simp only [hcp, hcap], ?_, ?_, fun hne => absurd rfl hne, ?_⟩
          · rw [hb] at hlen
            simp only [List.length_cons] at hlen
            simp only
            omega
          · rw [hb] at hq
            simpa using hq
          · simp [hsent]
        · refine ⟨k + 1, by simp only [hcp, hcap], by simp [hb1], ?_,
            fun _ => ⟨by simp only [hc, hcl], hb1⟩, ?_⟩
          · rw [hb] at hq
            simp only [List.append_nil] at hq
            simp only [hb1, List.append_nil, hq, hv, List.replicate_succ', List.append_assoc]
          · simp [hsent]
  · exact absurd h (by simp)

/-- A step of a session keeps the histories of the output channel related. -/
lemma step_relay {s s1 : Session} {a : Act} {k : Nat}
    (hinv : RelayInv s k) (h : s.step a = .ok s1) : ∃ k1, RelayInv s1 k1 := by
  cases a with
  | reader r => exact readerStep_relay hinv h
  | relay pick => exact relayStep_relay hinv h
  | shellStop =>
    simp only [Session.step, Shell.Stop] at h
    split at h
    · exact absurd h (by simp)
    · rename_i sh hstop
      split at hstop
      · exact absurd hstop (by simp)
      · simp only [Except.ok.injEq] at hstop h
        subst hstop; subst h
        exact ⟨k, hinv⟩
  | clearFlag =>
    simp only [Session.step, Except.ok.injEq] at h
    subst h
    exact ⟨k, hinv⟩

/-- A run of a session keeps the histories of the output channel related. -/
lemma run_relay (acts : List Act) :
    ∀ (s s1 : Session) (k : Nat), RelayInv s k → s.run acts = .ok s1 →
      ∃ k1, RelayInv s1 k1 := by
  induction acts with
  | nil =>
    intro s s1 k hinv h
    simp only [Session.run, Except.ok.injEq] at h
    subst h; exact ⟨k, hinv⟩
  | cons a rest ih =>
    intro s s1 k hinv h
    simp only [Session.run] at h
    split at h
    · exact absurd h (by simp)
    · rename_i s2 hstep
      obtain ⟨k2, h2⟩ := step_relay hinv hstep
      exact ih s2 s1 k2 h2 h

/-- No step changes the chat of a session. -/
lemma step_chat {s s1 : Session} {a : Act} (h : s.step a = .ok s1) : s1.chat = s.chat := by
  cases a with
  | reader r =>
    simp only [Session.step, readerStep] at h
    split at h
    all_goals first
      | (simp only [Except.ok.injEq] at h; subst h; rfl)
      | exact absurd h (by simp)
      | (split at h
         all_goals first
           | (simp only [Except.ok.injEq] at h; subst h; rfl)
           | exact absurd h (by simp))
  | relay pick =>
    simp only [Session.step, relayStep] at h
    split at h
    · split_ifs at h <;> (simp only [Except.ok.injEq] at h; subst h; rfl)
    · split at h
      all_goals
        split at h
        · exact absurd h (by simp)
        · simp only [Except.ok.injEq] at h; subst h; rfl
    · exact absurd h (by simp)
  | shellStop =>
    simp only [Session.step] at h
    split at h
    · exact absurd h (by simp)
    · simp only [Except.ok.injEq] at h; subst h; rfl
  | clearFlag =>
    simp only [Session.step, Except.ok.injEq] at h
    subst h; rfl

lemma run_chat (acts : List Act) :
    ∀ (s s1 : Session), s.run acts = .ok s1 → s1.chat = s.chat := by
  induction acts with
  | nil =>
    intro s s1 h
    simp only [Session.run, Except.ok.injEq] at h
    subst h; rfl
  | cons a rest ih =>
    intro s s1 h
    simp only [Session.run] at h
    split at h
    · exact absurd h (by simp)
    · rename_i s2 hstep
      rw [ih s2 s1 h, step_chat hstep]

lemma start_relay (ts : TeleShell) (sh : ShellRef) (chat : ChatRef) :
    RelayInv (Session.start ts sh chat) 0 := by
  simp [RelayInv, Session.start, Chan.make]

/-! ### The model at sample inputs -/

lemma stringsSplit_sample :
    stringsSplit newline (lit "a\n\nb\n") = [lit "a", [], lit "b", []] := by decide

lemma paginate_sample :
    paginate (lit "ab\ncd") = [lit "ab\ncd\n"] := by decide

set_option maxRecDepth 8192 in
lemma msgHelp_sample :
    msgHelp = lit ("Welcome to teleshell!\nUse the following commands:\n" ++
      "/cmd <command> to run a single command on your machine \n" ++
      "\twithout launching shell.\n" ++
      "/shell to start bash shell on your machine and redirect \n" ++
      "\tinput from this chat to the shell. Avoid launching \n" ++
      "\tinteractive programs. sudo is OK, but vim is NOT. \n" ++
      "\tAlso colored output of programs appears as \n" ++
      "\tgarbage in chat.\n" ++
      "/exit to force-kill running shell\n" ++
      "/help to see this message again.") ∧
    msgHelp.length = 423 := by decide

lemma botCommandRegexp_sample :
    botCommandRegexp (lit "/cmd  ls -l") = [0, 6, 1, 4] ∧
    botCommandRegexp (lit "/cmd@bot x") = [0, 4, 1, 4] ∧
    botCommandRegexp (lit "/shell") = [0, 6, 1, 6] ∧
    botCommandRegexp (lit "cmd ls") = [] ∧
    botCommandRegexp (lit "/ cmd") = [] ∧
    botCommandRegexp (lit " /cmd") = [] := by decide

lemma FindStringSubmatch_sample :
    botCommandRegexp.FindStringSubmatch (lit "/cmd  ls -l") = [lit "/cmd  ", lit "cmd"] := by
  decide

/-- The operator runs a single command: `/cmd ls -l` runs `ls` with the
argument `-l` and sends its output. -/
lemma authAndRoute_cmd_sample :
    authAndRoute demoWorld demoBot (fromAlice (lit "/cmd ls -l")) =
      .ok (demoBot, [Effect.runCommand (lit "ls") [lit "-l"], Effect.botSend 7 []]) := rfl

/-- The operator starts a session, sends a line to it and stops it. -/
lemma authAndRoute_session_sample :
    authAndRoute demoWorld demoBot (fromAlice (lit "/shell")) =
      .ok (demoBotActive,
        [Effect.shellNew [], Effect.botSend 7 msgSessionStarted, Effect.goRelay 1 7]) ∧
    authAndRoute demoWorld demoBotActive (fromAlice (lit "ls")) =
      .ok (demoBotActive, [Effect.shellExecute 1 (lit "ls")]) ∧
    authAndRoute demoWorld demoBotActive (fromAlice (lit "/exit")) =
      .ok (demoBot, [Effect.shellStop 1, Effect.sleepSecond]) :=
  ⟨rfl, rfl, rfl⟩

/-- After the shell has quit and the relay has sent the stop notice, the
session reference is still set, so `TeleShell.Stop` calls `Shell.Stop`, whose
send on the closed stopped channel panics. -/
lemma stop_after_shell_quit_panics :
    ∃ s, (Session.start demoBot 1 7).run shellQuits = .ok s ∧
      s.relay = .exited ∧
      s.ts.shellChatInProgress = false ∧
      s.ts.Stop = [Effect.shellStop 1, Effect.botStop] ∧
      s.step Act.shellStop = .error (.panic .sendOnClosedChannel) :=
  ⟨_, rfl, rfl, rfl, rfl, rfl⟩

/-- A chunk read after `Stop`: `Stop` fires the stopped-signal while the
reader waits in its read, the read then returns a chunk and the reader queues
it on the output channel before it terminates and fires the signal again. -/
lemma late_chunk_after_stop :
    ∃ s, (Session.start demoBot 1 7).run stopThenLateChunk = .ok s ∧
      s.sh.fileClosed = true ∧
      s.queued = [lit "late"] ∧
      s.sh.output.buf = [lit "late"] ∧
      s.fired = [Source.byStop, Source.byReader] :=
  ⟨_, rfl, rfl, rfl, rfl, rfl⟩

/-- In every run of a session, when the relay has sent the stop notice it has
forwarded, in the order queued, every chunk queued on the output channel
except at most one, the chunk still held in the one slot of the channel
(after the queued chunks it may have forwarded `k` empty texts, the zero
values received from the closed channel). -/
lemma relay_exit_all_but_buffered (ts : TeleShell) (sh : ShellRef)
    (chat : ChatRef) (acts : List Act) (s : Session)
    (hrun : (Session.start ts sh chat).run acts = .ok s)
    (hexit : s.relay = .exited) :
    ∃ k, s.sent = s.received.flatMap (send chat) ++ [Effect.botSend chat msgSessionStopped] ∧
      s.received ++ s.sh.output.buf = s.queued ++ List.replicate k [] ∧
      s.sh.output.buf.length ≤ 1 ∧
      (k ≠ 0 → s.sh.output.buf = []) := by
  obtain ⟨k, _, hlen, hq, hk, hsent⟩ := run_relay acts _ s 0 (start_relay ts sh chat) hrun
  have hchat : s.chat = chat := run_chat acts _ s hrun
  rw [hexit, if_pos rfl, hchat] at hsent
  exact ⟨k, hsent, hq, hlen, fun hne => (hk hne).2⟩

/-- The run in which the relay takes the output case before the stopped case:
the chunk `x` is forwarded before the stop notice. -/
lemma output_before_stopped_sample :
    ∃ s, (Session.start demoBot 1 7).run outputBeforeStopped = .ok s ∧
      s.relay = .exited ∧
      s.sent = [Effect.botSend 7 (lit "x"), Effect.botSend 7 msgSessionStopped] :=
  ⟨_, rfl, rfl, rfl⟩

/-! ## The claims -/

/-- C1 (the code departs from the claim).  The text of 4096 bytes `a`, a
newline and a byte `b` is longer than the limit and none of its two lines is
longer than the limit, yet the first chunk that `paginate` returns for it is
4097 bytes long: the line and the newline written after it. -/
theorem paginate_chunk_exceeds_limit :
    (List.replicate 4096 (97 : UInt8) ++ [newline, 98]).length > maxTelegramMessageSize ∧
    (∀ l ∈ stringsSplit newline (List.replicate 4096 (97 : UInt8) ++ [newline, 98]),
      l.length ≤ maxTelegramMessageSize) ∧
    paginate (List.replicate 4096 (97 : UInt8) ++ [newline, 98]) =
      [List.replicate 4096 (97 : UInt8) ++ [newline], [98, newline]] ∧
    (List.replicate 4096 (97 : UInt8) ++ [newline]).length = maxTelegramMessageSize + 1 := by
  have h := paginate_full_line 4096 97 98 rfl (by decide) (by decide)
  refine ⟨?_, ?_, h.2, ?_⟩
  · rw [List.length_append, List.length_replicate]
    decide
  · rw [h.1]
    intro l hl
    simp only [List.mem_cons, List.mem_singleton, List.not_mem_nil, or_false] at hl
    rcases hl with e | e
    · rw [e, List.length_replicate]; decide
    · rw [e]; decide
  · rw [List.length_append, List.length_replicate]
    rfl

/-- C2 (as stated, refuted).  For the text of 4097 bytes `a`, longer than the
limit, the concatenation of the chunks of `paginate` is not the text. -/
theorem paginate_concat_ne_input :
    (List.replicate 4097 (97 : UInt8)).length > maxTelegramMessageSize ∧
    (paginate (List.replicate 4097 (97 : UInt8))).flatten ≠ List.replicate 4097 (97 : UInt8) := by
  refine ⟨by rw [List.length_replicate]; decide, ?_⟩
  rw [paginate_flatten]
  intro h
  have hlen := congrArg List.length h
  rw [List.length_append, List.length_replicate] at hlen
  exact absurd hlen (by decide)

/-- C2 (amended).  For every input text, so for every one longer than the
limit, the concatenation, in order, of the chunks returned by `paginate` is
the input followed by one newline byte. -/
theorem paginate_concat_eq_input_newline (input : GoString) :
    (paginate input).flatten = input ++ [newline] :=
  paginate_flatten input

/-- C3.  `paginate` never splits a line: the lines of the input (the input
split at newlines) are the concatenation of consecutive runs of lines such
that the chunks are, in order, the renderings of the runs, each line of a run
followed by a newline.  Every run but the first has a line, and so has the
first unless the first line is longer than the limit (the first chunk is then
empty). -/
theorem paginate_never_splits_line (input : GoString) :
    ∃ runs : List (List GoString),
      runs.flatten = stringsSplit newline input ∧
      paginate input = runs.map renderRun ∧
      (∀ r ∈ runs.tail, r ≠ []) ∧
      ((stringsSplit newline input).headI.length ≤ maxTelegramMessageSize →
        ∀ r ∈ runs, r ≠ []) :=
  paginate_runs input

/-- C6.  A message whose sender has another username than the configured one,
or is a bot, is answered by `authAndRoute` with exactly one `bot.Send`, of the
refusal text, whatever its text is; the state is unchanged and nothing else is
done (no command is run, no shell is made, written to or stopped). -/
theorem authAndRoute_unauthorized (w : World) (ts : TeleShell) (m : Message) (u : User)
    (hsender : m.Sender = some u)
    (hu : u.Username ≠ ts.TelegramUsername ∨ u.IsBot = true) :
    authAndRoute w ts m = .ok (ts, [Effect.botSend m.Chat msgNotAuthorized]) := by
  have hauth : isAuthorized ts m.Sender = .ok false := by
    rw [hsender]
    simp only [isAuthorized, Except.ok.injEq, Bool.and_eq_false_iff, beq_eq_false_iff_ne,
      ne_eq, Bool.not_eq_false']
    exact hu
  simp only [authAndRoute, hauth, refuse, send_msgNotAuthorized]

/-- C7.  `send` hands to the transport exactly the message itself, once and
unchanged, when it is at most 4096 bytes long, and exactly the chunks of
`paginate`, in order, when it is longer. -/
theorem send_emits (c : ChatRef) (msg : GoString) :
    send c msg =
      if msg.length ≤ 4096 then [Effect.botSend c msg]
      else (paginate msg).map (Effect.botSend c) := by
  unfold send
  by_cases h : msg.length ≤ 4096
  · rw [if_neg (by simpa [maxTelegramMessageSize] using h), if_pos h]
  · rw [if_pos (by simpa [maxTelegramMessageSize] using h), if_neg h, paginatedSend_eq]

/-- C8.  With a session in progress (flag true), `startSession` sends exactly
the "session in progress" message, calls no `shell.New` and leaves the state,
so the flag and the session reference, unchanged; and this is what
`authAndRoute` does with a session-start command of the operator. -/
theorem startSession_in_progress (w : World) (ts : TeleShell) (m : Message)
    (hflag : ts.shellChatInProgress = true) :
    startSession w ts m = .ok (ts, [Effect.botSend m.Chat msgSessionInProgress]) ∧
    (isAuthorized ts m.Sender = .ok true → routeCommand m.Text = .ok commStartSession →
      authAndRoute w ts m = .ok (ts, [Effect.botSend m.Chat msgSessionInProgress])) := by
  have hstart : startSession w ts m =
      .ok (ts, [Effect.botSend m.Chat msgSessionInProgress]) := by
    simp only [startSession, hflag, if_true, send_msgSessionInProgress]
  refine ⟨hstart, ?_⟩
  intro hauth hroute
  have hne : commStartSession ≠ commSingleCommand := by decide
  simp only [authAndRoute, hauth, hroute, if_neg hne, if_true, hstart]

/-- C10.  When the bot-command pattern matches a text and its captured word
is `cmd`, so that `authAndRoute` calls `execSingleCommand`, the lookup of
`stripBotCommand` yields a location whose end offset is within the text, and
`stripBotCommand` returns the text from that offset on, without a panic. -/
theorem stripBotCommand_in_range (text : GoString)
    (hmatch : botCommandRegexp.MatchString text = true)
    (hword : (botCommandRegexp.FindStringSubmatch text)[1]? = some commSingleCommand) :
    routeCommand text = .ok commSingleCommand ∧
    ∃ e, (botCommandRegexp.FindStringIndex text)[1]? = some e ∧ 0 ≤ e ∧ e ≤ text.length ∧
      stripBotCommand text = .ok (text.drop e) := by
  refine ⟨by simp [routeCommand, hmatch, hword], ?_⟩
  rcases botCommandRegexp_cases text with h | ⟨e, wd, h, _, _, hle⟩
  · simp [botCommandRegexp.MatchString, h] at hmatch
  · refine ⟨e, by simp [botCommandRegexp.FindStringIndex, h], Nat.zero_le _, hle, ?_⟩
    simp [stripBotCommand, botCommandRegexp.FindStringIndex, h, hle]

/-- C6, at an input: `mallory` sends `/cmd ls` to the bot of `alice`. -/
theorem authAndRoute_unauthorized_witness :
    (fromMallory (lit "/cmd ls")).Sender = some { Username := lit "mallory", IsBot := false } ∧
    authAndRoute demoWorld demoBot (fromMallory (lit "/cmd ls")) =
      .ok (demoBot, [Effect.botSend 7 msgNotAuthorized]) :=
  ⟨rfl, authAndRoute_unauthorized demoWorld demoBot (fromMallory (lit "/cmd ls"))
    { Username := lit "mallory", IsBot := false } rfl (Or.inl (by decide))⟩

/-- C8, at an input: `alice` sends `/shell` while her session is in progress. -/
theorem startSession_in_progress_witness :
    demoBotActive.shellChatInProgress = true ∧
    startSession demoWorld demoBotActive (fromAlice (lit "/shell")) =
      .ok (demoBotActive, [Effect.botSend 7 msgSessionInProgress]) ∧
    authAndRoute demoWorld demoBotActive (fromAlice (lit "/shell")) =
      .ok (demoBotActive, [Effect.botSend 7 msgSessionInProgress]) :=
  ⟨rfl, (startSession_in_progress demoWorld demoBotActive (fromAlice (lit "/shell")) rfl).1,
    (startSession_in_progress demoWorld demoBotActive (fromAlice (lit "/shell")) rfl).2
      rfl rfl⟩

/-- C10, at an input: the text `/cmd  ls -l`, whose match ends at offset 6. -/
theorem stripBotCommand_in_range_witness :
    botCommandRegexp.MatchString (lit "/cmd  ls -l") = true ∧
    (botCommandRegexp.FindStringSubmatch (lit "/cmd  ls -l"))[1]? = some commSingleCommand ∧
    botCommandRegexp.FindStringIndex (lit "/cmd  ls -l") = [0, 6] ∧
    stripBotCommand (lit "/cmd  ls -l") = .ok (lit "ls -l") ∧
    ∃ e, (botCommandRegexp.FindStringIndex (lit "/cmd  ls -l"))[1]? = some e ∧ 0 ≤ e ∧
      e ≤ (lit "/cmd  ls -l").length ∧
      stripBotCommand (lit "/cmd  ls -l") = .ok ((lit "/cmd  ls -l").drop e) :=
  ⟨by decide, by decide, by decide, rfl,
    (stripBotCommand_in_range (lit "/cmd  ls -l") (by decide) (by decide)).2⟩

/-- C4 (the code departs from the claim).  From the initial state, a
successful `startSession` followed by the relay goroutine receiving the
stopped-signal (the shell has quit) ends with the flag false and the session
reference still set: the relay clears the flag only, where `stopSession`
also sets the reference to nil. -/
theorem relay_stopped_keeps_session_reference :
    demoBot.shellChatInProgress = false ∧ demoBot.shell = none ∧
    ∃ ts, applyTransitions demoBot
        [Transition.start demoWorld (fromAlice (lit "/shell")), Transition.relayStopped]
          = .ok ts ∧
      ts.shellChatInProgress = false ∧ ts.shell = some 1 ∧
      ¬ (ts.shellChatInProgress = true ↔ ts.shell ≠ none) :=
  ⟨rfl, rfl, _, rfl, rfl, rfl, by decide⟩

/-- C5 (as stated, refuted).  In the session of `demoBot`, a call of `Stop`
followed by the termination of the reader fires the stopped-signal twice, the
first time from `Stop`. -/
theorem stopped_signal_fired_twice :
    ∃ s, (Session.start demoBot 1 7).run stopThenReaderExit = .ok s ∧
      s.reader = .done ∧
      s.fired = [Source.byStop, Source.byReader] ∧
      ¬ (s.fired.length ≤ 1 ∧ ∀ x ∈ s.fired, x = Source.byReader) :=
  ⟨_, rfl, rfl, rfl, by decide⟩

/-- C5 (amended).  In every run of a session the stopped-signal has been
fired once by every completed call of `Stop` (a send) and after these, once
the reader has finished, once by the reader (the close): the reader fires it
at most once, and in a run without a call of `Stop` it is fired at most once
and only by the reader. -/
theorem stopped_signal_sources (ts : TeleShell) (sh : ShellRef) (chat : ChatRef)
    (acts : List Act) (s : Session)
    (hrun : (Session.start ts sh chat).run acts = .ok s) :
    s.fired = List.replicate (acts.count Act.shellStop) Source.byStop ++
        (if s.reader = .done then [Source.byReader] else []) ∧
      s.fired.count Source.byReader ≤ 1 ∧
      s.fired.count Source.byStop = acts.count Act.shellStop ∧
      (Act.shellStop ∉ acts →
        s.fired.length ≤ 1 ∧ ∀ x ∈ s.fired, x = Source.byReader) := by
  have hinv := run_fired acts _ s 0 (start_fired ts sh chat) hrun
  rw [Nat.zero_add] at hinv
  obtain ⟨hf, _⟩ := hinv
  refine ⟨hf, ?_, ?_, ?_⟩
  · rw [hf]
    split_ifs <;> simp [List.count_replicate]
  · rw [hf]
    split_ifs <;> simp [List.count_replicate]
  · intro hno
    have h0 : acts.count Act.shellStop = 0 := List.count_eq_zero.2 hno
    rw [h0] at hf
    rw [hf]
    split_ifs <;> simp

/-- C5 (amended), at an input: the run in which `Stop` is called and the
reader then terminates. -/
theorem stopped_signal_sources_witness :
    ∃ s, (Session.start demoBot 1 7).run stopThenReaderExit = .ok s ∧
      s.fired = List.replicate (stopThenReaderExit.count Act.shellStop) Source.byStop ++
        (if s.reader = .done then [Source.byReader] else []) ∧
      s.fired.count Source.byReader ≤ 1 :=
  ⟨_, rfl,
    (stopped_signal_sources demoBot 1 7 stopThenReaderExit _ rfl).1,
    (stopped_signal_sources demoBot 1 7 stopThenReaderExit _ rfl).2.1⟩

/-- C9 (the code departs from the claim).  In the session of `demoBot` the
reader queues the chunk `x`, its next read fails and it closes the output
channel and then the stopped channel; the relay then takes the stopped case of
its `select` and sends the stop notice, while the queued chunk is still in the
output channel: the only message the relay has sent is the stop notice, the
final output of the shell is never forwarded. -/
theorem stop_notice_before_queued_chunk :
    ∃ s, (Session.start demoBot 1 7).run stoppedBeforeOutput = .ok s ∧
      s.relay = .exited ∧
      s.reader = .done ∧
      s.queued = [lit "x"] ∧
      s.received = [] ∧
      s.sh.output.buf = [lit "x"] ∧
      s.sent = [Effect.botSend 7 msgSessionStopped] :=
  ⟨_, rfl, rfl, rfl, rfl, rfl, rfl, rfl⟩

end Teleshell
